import Mathlib

/-!
zweb: route resolution, language lookup and export targets.

A shallow embedding of the core of `stevenzack/zweb` (`tools.go`, `lang.go`, `zweb.go`,
`cmd/zweb/main.go`).

* Go strings are byte sequences (`GoString`); indexing `s[i]` reads a byte.
* Go maps are association lists read with `mapGet` and written with `mapSet`.
* The file system is an oracle `FS` answering `os.Stat` and `os.ReadDir`.
* A Go panic (`log.Panic`, write to a nil map, index out of range) is an explicit
  failure value, never a silent default.
-/

namespace ZWeb

/-! ## Strings -/

/-- A Go string: a sequence of bytes. -/
abbrev GoString := List UInt8

/-- The UTF-8 bytes of a string literal. -/
def lit (s : String) : GoString := s.toUTF8.data.toList

/-- Go `strings.HasPrefix(s, p)`: `len(s) >= len(p) && s[:len(p)] == p`. -/
def HasPrefix (s p : GoString) : Bool :=
  decide (p.length ≤ s.length) && decide (s.take p.length = p)

/-- Go `strings.HasSuffix(s, suf)`: `len(s) >= len(suf) && s[len(s)-len(suf):] == suf`. -/
def HasSuffix (s suf : GoString) : Bool :=
  decide (suf.length ≤ s.length) && decide (s.drop (s.length - suf.length) = suf)

/-- Go `strings.TrimPrefix(s, p)`. -/
def TrimPrefix (s p : GoString) : GoString :=
  if HasPrefix s p then s.drop p.length else s

/-- Go `strings.TrimSuffix(s, suf)`. -/
def TrimSuffix (s suf : GoString) : GoString :=
  if HasSuffix s suf then s.take (s.length - suf.length) else s

/-- Go `strings.Split(s, sep)` for a one-byte separator: the pieces between
consecutive separators, `n+1` pieces for `n` separators. -/
def stringsSplit (sep : UInt8) : GoString → List GoString
  | [] => [[]]
  | c :: t =>
    if c = sep then [] :: stringsSplit sep t
    else
      match stringsSplit sep t with
      | [] => [[c]]
      | h :: r => (c :: h) :: r

/-- Go `strings.Join(elems, sep)`. -/
def stringsJoin (sep : GoString) : List GoString → GoString
  | [] => []
  | [e] => e
  | e :: f :: es => e ++ sep ++ stringsJoin sep (f :: es)

/-- Go `strings.Contains(s, sub)`. -/
def Contains (s sub : GoString) : Bool :=
  match s with
  | [] => decide (sub = [])
  | c :: t => decide ((c :: t).take sub.length = sub) || Contains t sub

/-- Go `strings.ToUpper` on an ASCII byte: `a`..`z` move down by 32, every other
ASCII byte stays. -/
def upperByte (b : UInt8) : UInt8 :=
  if 97 ≤ b ∧ b ≤ 122 then b - 32 else b

/-- The function `toUpperCamelCase` of `tools.go`: `s[0]` is the first BYTE; when it is in
`a`..`z` the result is `strings.ToUpper(string(v)) + s[1:]`, otherwise `s`. -/
def toUpperCamelCase (s : GoString) : GoString :=
  match s with
  | [] => []
  | v :: rest =>
    if 97 ≤ v ∧ v ≤ 122 then [upperByte v] ++ rest else s

/-- The loop of `SubBefore`: `pre = s[:i]`, `rest = s[i:]`. The loop runs while
`i <= len(s)-len(sep)`, that is while `len(sep) <= len(rest)`; it returns `s[:i]` at the
first `i` with `s[i:i+len(sep)] == sep`, and `def` when the loop ends. -/
def subBeforeLoop (sep d : GoString) : GoString → GoString → GoString
  | pre, [] => if sep = [] then pre else d
  | pre, c :: t =>
    if sep.length ≤ (c :: t).length then
      if (c :: t).take sep.length = sep then pre
      else subBeforeLoop sep d (pre ++ [c]) t
    else d

/-- The function `SubBefore(s, sep, def)` of `tools.go`. -/
def SubBefore (s sep d : GoString) : GoString := subBeforeLoop sep d [] s

/-- The loop of `SubAfter` over `rest = s[i:]`: returns `s[i+len(sep):]` at the first
match, `def` when the loop ends. -/
def subAfterLoop (sep d : GoString) : GoString → GoString
  | [] => if sep = [] then [] else d
  | c :: t =>
    if sep.length ≤ (c :: t).length then
      if (c :: t).take sep.length = sep then (c :: t).drop sep.length
      else subAfterLoop sep d t
    else d

/-- The function `SubAfter(s, sep, def)` of `tools.go`. -/
def SubAfter (s sep d : GoString) : GoString := subAfterLoop sep d s

/-! ## Paths (`path/filepath`, Unix) -/

/-- One element of `filepath.Clean`, on the stack of kept elements (top first):
empty and `.` elements are dropped; `..` removes the element before it when there is
one that is not itself `..`, is dropped at the root of a rooted path, and is kept
otherwise; every other element is kept. -/
def cleanStep (rooted : Bool) (stack : List GoString) (e : GoString) : List GoString :=
  if e = [] ∨ e = [46] then stack
  else if e = [46, 46] then
    match stack with
    | [] => if rooted then [] else [e]
    | top :: below => if top = [46, 46] then e :: stack else below
  else e :: stack

/-- Go `filepath.Clean`: the shortest equivalent path by purely lexical processing. -/
def filepathClean (p : GoString) : GoString :=
  let rooted := decide (p.head? = some 47)
  let body := stringsJoin [47] ((stringsSplit 47 p).foldl (cleanStep rooted) []).reverse
  if rooted then 47 :: body else if body = [] then [46] else body

/-- Go `filepath.Join`: empty leading elements are ignored, the rest is joined with `/`
and cleaned; all elements empty gives the empty string. -/
def filepathJoin : List GoString → GoString
  | [] => []
  | e :: es => if e = [] then filepathJoin es else filepathClean (stringsJoin [47] (e :: es))

/-- The loop of `filepath.Ext`, from the last byte backwards: `acc = path[i+1:]`. -/
def extLoop : List UInt8 → GoString → GoString
  | [], _ => []
  | c :: r, acc =>
    if c = 47 then [] else if c = 46 then c :: acc else extLoop r (c :: acc)

/-- Go `filepath.Ext`: the suffix from the final dot of the final element, or empty. -/
def filepathExt (p : GoString) : GoString := extLoop p.reverse []

/-- Go `filepath.Dir`: everything up to the last `/`, cleaned. -/
def filepathDir (p : GoString) : GoString :=
  filepathClean (p.reverse.dropWhile (fun c => c ≠ 47)).reverse

/-! ## Go maps -/

/-- Read `m[k]` with the presence flag: the first binding of `k`. -/
def mapGet {κ ν : Type} [DecidableEq κ] : List (κ × ν) → κ → Option ν
  | [], _ => none
  | (k, v) :: t, a => if k = a then some v else mapGet t a

/-- Write `m[k] = v`: replace the binding of `k`, or add one. -/
def mapSet {κ ν : Type} [DecidableEq κ] : List (κ × ν) → κ → ν → List (κ × ν)
  | [], a, w => [(a, w)]
  | (k, v) :: t, a, w => if k = a then (k, w) :: t else (k, v) :: mapSet t a w

/-! ## File system and route resolution (`tools.go`) -/

/-- The file system as seen by the program: `stat p` is `none` when `os.Stat(p)` fails and
`some isDir` otherwise; `readDir p` is `none` when `os.ReadDir(p)` fails and the entry
names in listing order otherwise. -/
structure FS where
  stat : GoString → Option Bool
  readDir : GoString → Option (List GoString)

/-- A file system given by the table of its existing paths (`true` marks a directory), in
listing order: `stat` looks the cleaned path up, `readDir` of a directory lists the names
directly below it. -/
def tableFS (t : List (GoString × Bool)) : FS where
  stat p := mapGet t (filepathClean p)
  readDir p :=
    match mapGet t (filepathClean p) with
    | some true =>
      some ((t.map Prod.fst).filterMap (fun q =>
        let pre := filepathClean p ++ [47]
        if HasPrefix q pre ∧ q ≠ pre ∧ ¬ (47 ∈ q.drop pre.length)
        then some (q.drop pre.length) else none))
    | _ => none

/-- The path parameters `map[string]any`; every value stored is a string. -/
abbrev Params := List (GoString × GoString)

/-- How `parsePathParams` can fail: the returned error `route not found <urlPath>`, or a
panic (`log.Panic` after a failed `os.ReadDir`, or `f.Name()[0]` on an empty name). -/
inductive RouteError where
  | routeNotFound (urlPath : GoString)
  | panic
  deriving DecidableEq, Repr

/-- The inner loop `for _, f := range fs` of `parsePathParams`: the first entry whose
name starts with `[`. `none` is a panic (`f.Name()[0]` on an empty name), `some none`
means that the loop ended without a match. -/
def firstDynamic : List GoString → Option (Option GoString)
  | [] => some none
  | [] :: _ => none
  | (c :: n) :: rest => if c = 91 then some (some (c :: n)) else firstDynamic rest

/-- The loop `ROUTE_LOOP` of `parsePathParams` over the remaining segments, from the
current `pwd` and map `m`. An empty segment is skipped. A segment that cannot be
stat-ed is matched against the first bracket-named entry of `pwd`: `key` is
`SubBefore(name[1:], "]", "")`, `suffix` is `SubAfter(name, "]", "")`, the map gets
`m[key] = TrimSuffix(segment, suffix)` and `pwd` becomes `Join(pwd, name)`. A segment
naming a directory is entered; a segment naming anything else ends the loop (`break`)
with `pwd` as it is. -/
def routeLoop (fs : FS) (urlPath : GoString) :
    List GoString → GoString → Params → Except RouteError (GoString × Params)
  | [], pwd, m => .ok (pwd, m)
  | filename :: rest, pwd, m =>
    if filename = [] then routeLoop fs urlPath rest pwd m
    else
      match fs.stat (filepathJoin [pwd, filename]) with
      | none =>
        match fs.readDir pwd with
        | none => .error .panic
        | some entries =>
          match firstDynamic entries with
          | none => .error .panic
          | some none => .error (.routeNotFound urlPath)
          | some (some name) =>
            routeLoop fs urlPath rest (filepathJoin [pwd, name])
              (mapSet m (SubBefore (name.drop 1) [93] [])
                (TrimSuffix filename (SubAfter name [93] [])))
      | some true => routeLoop fs urlPath rest (filepathJoin [pwd, filename]) m
      | some false => .ok (pwd, m)

/-- The function `parsePathParams(dir, urlPath)` of `tools.go`: when
`Join(dir, TrimPrefix(urlPath, "/"))` exists the result is the empty string and the
empty map; otherwise the walk `routeLoop` over `strings.Split(urlPath, "/")`. -/
def parsePathParams (fs : FS) (dir urlPath : GoString) :
    Except RouteError (GoString × Params) :=
  match fs.stat (filepathJoin [dir, TrimPrefix urlPath [47]]) with
  | some _ => .ok ([], [])
  | none => routeLoop fs urlPath (stringsSplit 47 urlPath) dir []

/-! ## Translation store (`lang.go`) -/

/-- One language dictionary, `map[string]string`. -/
abbrev Dict := List (GoString × GoString)

/-- The struct `LangEngine`. In `langs` a language bound to `none` is a language whose
inner map is `nil` (what `json.Unmarshal` leaves for a file holding `null`); reading a
nil map behaves like reading an empty one, writing to it panics. -/
structure LangEngine where
  LangDir : GoString
  DefaultLang : GoString
  DisableAutoSync : Bool
  langs : List (GoString × Option Dict)
  needSync : Bool
  deriving DecidableEq, Repr

/-- The method `getDefaultLang`. -/
def getDefaultLang (l : LangEngine) : GoString :=
  if l.DefaultLang = [] then lit "en" else l.DefaultLang

/-- The Go expression `l.langs[lang]`: `none` when it is `nil` (no binding, or a nil map). -/
def innerMap (l : LangEngine) (lang : GoString) : Option Dict :=
  (mapGet l.langs lang).join

/-- The Go expression `l.langs[lang][key]` with its presence flag. -/
def entry (l : LangEngine) (lang key : GoString) : Option GoString :=
  match innerMap l lang with
  | some d => mapGet d key
  | none => none

/-- The Go statement `l.langs[lang][key] = v`: a panic (`none`) when `l.langs[lang]` is nil. -/
def setEntry (l : LangEngine) (lang key v : GoString) : Option LangEngine :=
  match innerMap l lang with
  | some d => some { l with langs := mapSet l.langs lang (some (mapSet d key v)) }
  | none => none

/-- The language segment every method of `lang.go` computes from a path:
`SubBefore(SubAfter(path, "/", path), "/", "")`. -/
def langSegment (path : GoString) : GoString :=
  SubBefore (SubAfter path [47] path) [47] []

/-- The language `generateS` fixes before it returns its closure (the engine is the one
left by `loadLangs`). -/
def negotiate (l : LangEngine) (path : GoString) : GoString :=
  let s := langSegment path
  if s ≠ [] ∧ (mapGet l.langs s).isSome then s else getDefaultLang l

/-- The block under `if !l.DisableAutoSync` of the closure: a nil `l.langs[lang]` is first
replaced by an empty map, then `l.langs[lang][key] = toUpperCamelCase(key)` and
`l.needSync = true`. -/
def afterAutoSync (l : LangEngine) (lang key : GoString) : LangEngine :=
  { l with langs := mapSet l.langs lang
             (some (mapSet ((innerMap l lang).getD []) key (toUpperCamelCase key))),
           needSync := true }

/-- The closure returned by `generateS`, for the language `lang` it captured: the text
returned and the engine afterwards, or `none` for a panic. A stored text is returned as
it is; otherwise the autosync block runs unless disabled, then a language other than
the default one takes over the default language's text for the key when there is one,
and the result is `toUpperCamelCase(key)` in every remaining case. -/
def lookup (lang key : GoString) (l : LangEngine) : Option (GoString × LangEngine) :=
  match entry l lang key with
  | some v => some (v, l)
  | none =>
    let l1 : LangEngine := if l.DisableAutoSync then l else afterAutoSync l lang key
    if lang ≠ getDefaultLang l1 ∧ (innerMap l1 (getDefaultLang l1)).isSome then
      match entry l1 (getDefaultLang l1) key with
      | some v =>
        match setEntry l1 lang key v with
        | some l2 => some (v, l2)
        | none => none
      | none => some (toUpperCamelCase key, l1)
    else some (toUpperCamelCase key, l1)

/-- The method `generateS(r)` applied to a request with URL path `path`. -/
def generateS (l : LangEngine) (path : GoString) :
    GoString → LangEngine → Option (GoString × LangEngine) :=
  lookup (negotiate l path)

/-- The method `getRelPath`. -/
def getRelPath (l : LangEngine) (path : GoString) : GoString :=
  let s := langSegment path
  if s ≠ [] ∧ (mapGet l.langs s).isSome then TrimPrefix path ([47] ++ s) else path

/-- The method `getLangOf` on a request with URL path `path`. -/
def getLangOf (l : LangEngine) (path : GoString) : GoString :=
  let s := langSegment path
  if s ≠ [] ∧ (mapGet l.langs s).isSome then s else getDefaultLang l

/-- What one call of `TrySync` did: the files written, in order, each with the dictionary
that was marshalled into it; whether it returned an error; the engine afterwards. -/
structure SyncResult where
  written : List (GoString × Option Dict)
  failed : Bool
  engine : LangEngine
  deriving DecidableEq, Repr

/-- The loop `for k, m := range l.langs` of `TrySync`: each dictionary goes to
`Join(LangDir, k+".json")`; the first failing write returns the error. -/
def syncLoop (writeOk : GoString → Bool) (langDir : GoString) :
    List (GoString × Option Dict) → List (GoString × Option Dict) → List (GoString × Option Dict) × Bool
  | [], done => (done, false)
  | (k, m) :: rest, done =>
    let file := filepathJoin [langDir, k ++ lit ".json"]
    if writeOk file then syncLoop writeOk langDir rest (done ++ [(file, m)])
    else (done, true)

/-- The method `TrySync`; `writeOk file` tells whether `os.WriteFile(file, ..)` succeeds.
No statement of the method assigns `needSync`. -/
def TrySync (writeOk : GoString → Bool) (l : LangEngine) : SyncResult :=
  if l.needSync then
    let r := syncLoop writeOk l.LangDir l.langs []
    { written := r.1, failed := r.2, engine := l }
  else { written := [], failed := false, engine := l }

/-! ## Configuration and export (`zweb.go`, `cmd/zweb/main.go`) -/

/-- The struct `Config`. -/
structure Config where
  Dir : GoString
  OutDir : GoString
  LangDir : GoString
  TemplateExt : List GoString
  DisableLangAutoSync : Bool
  DefaultLang : GoString
  deriving DecidableEq, Repr

/-- The configuration part of `New(cfg...)`: `Dir` and `OutDir` get their defaults. -/
def New (cfg : Option Config) : Config :=
  let c : Config := cfg.getD
    { Dir := [], OutDir := [], LangDir := [], TemplateExt := [],
      DisableLangAutoSync := false, DefaultLang := [] }
  let c := if c.Dir = [] then { c with Dir := lit "src" } else c
  if c.OutDir = [] then { c with OutDir := lit "docs" } else c

/-- The method `isTemplateExt`: an empty `TemplateExt` is first set to `[".html"]`; the
result is whether `ext` equals one of the entries. The configuration afterwards is
returned as well. -/
def isTemplateExt (c : Config) (ext : GoString) : Bool × Config :=
  let c := if c.TemplateExt.length = 0 then { c with TemplateExt := [lit ".html"] } else c
  (c.TemplateExt.any (fun e => decide (e = ext)), c)

/-- The command line flags of `cmd/zweb/main.go`. -/
structure Flags where
  defaultLang : GoString
  dir : GoString
  out : GoString
  ext : GoString
  disableLangAutoSync : Bool

/-- The default values the flags are declared with. -/
def defaultFlags : Flags :=
  { defaultLang := lit "en", dir := lit "src", out := lit "docs", ext := lit "html",
    disableLangAutoSync := false }

/-- The `Config` that `main` builds from the flags. -/
def mainConfig (f : Flags) : Config :=
  { DefaultLang := f.defaultLang, Dir := f.dir, OutDir := f.out,
    TemplateExt := stringsSplit 44 f.ext, DisableLangAutoSync := f.disableLangAutoSync,
    LangDir := [] }

/-- One fetch of the export: the file written and the URL path fetched from the local
listener (the part after `http://localhost<addr>`). -/
structure Target where
  dst : GoString
  url : GoString
  deriving DecidableEq, Repr

/-- The loop `for _, f := range fs` of the dynamic branch of `Export`: `rel` is
reassigned in every iteration to `Join(Dir(rel), name+Ext(rel))`, where `name` is the
entry name without its extension; the target is `Join(OutDir, rel)` fetched from
`"/" + TrimSuffix(rel, "index.html")`. -/
def exportLoop (outDir : GoString) : List GoString → GoString → List Target
  | [], _ => []
  | f :: rest, rel =>
    let name := TrimSuffix f (filepathExt f)
    let rel1 := filepathJoin [filepathDir rel, name ++ filepathExt rel]
    { dst := filepathJoin [outDir, rel1], url := [47] ++ TrimSuffix rel1 (lit "index.html") }
      :: exportLoop outDir rest rel1

/-- The dynamic branch of the walk callback of `Export`, for the file `path` whose path
relative to the source root is `rel` (every fetch succeeding): `none` when
`rel` has no `[` (the branch is not taken) or `_data` cannot be read. -/
def exportDynamic (fs : FS) (outDir path rel : GoString) : Option (List Target) :=
  if Contains rel [91] then
    match fs.readDir (filepathJoin [filepathDir path, lit "_data"]) with
    | some entries => some (exportLoop outDir entries rel)
    | none => none
  else none

/-! ## Concrete layouts and stores used in the examples -/

/-- The source tree `src/users/[id]/profile.html`, with `_data` next to the file. -/
def treeDirParam : FS := tableFS [
  (lit "src", true), (lit "src/users", true), (lit "src/users/[id]", true),
  (lit "src/users/[id]/_data", true),
  (lit "src/users/[id]/_data/alice.json", false),
  (lit "src/users/[id]/_data/bob.json", false),
  (lit "src/users/[id]/profile.html", false)]

/-- The source tree `src/users/[id].html`, with `_data` next to the file. -/
def treeFileParam : FS := tableFS [
  (lit "src", true), (lit "src/users", true), (lit "src/users/[id].html", false),
  (lit "src/users/_data", true),
  (lit "src/users/_data/alice.json", false),
  (lit "src/users/_data/bob.json", false)]

/-- The source tree with the literal file `src/about.html` beside the dynamic directory
`src/[page]`. -/
def treeLiteral : FS := tableFS [
  (lit "src", true), (lit "src/[page]", true), (lit "src/[page]/index.html", false),
  (lit "src/about.html", false)]

/-- A store with `en` and `fr`, where only `en` translates `hello`. -/
def storeEnFr (disableAutoSync needSync : Bool) : LangEngine :=
  { LangDir := lit "lang", DefaultLang := lit "en", DisableAutoSync := disableAutoSync,
    langs := [(lit "en", some [(lit "hello", lit "Hi")]), (lit "fr", some [])],
    needSync := needSync }

/-- The store `loadLangs` builds from `en.json` = `{"hello": "Hi"}` and `fr.json` = `null`:
`json.Unmarshal` sets the map for `fr` to nil. -/
def storeNilFr : LangEngine :=
  { LangDir := lit "lang", DefaultLang := lit "en", DisableAutoSync := true,
    langs := [(lit "en", some [(lit "hello", lit "Hi")]), (lit "fr", none)],
    needSync := false }

/-! ## Lemmas on maps and on the string helpers -/

theorem mapGet_mapSet_same {κ ν : Type} [DecidableEq κ] (m : List (κ × ν)) (k : κ) (v : ν) :
    mapGet (mapSet m k v) k = some v := by
  induction m with
  | nil => simp [mapSet, mapGet]
  | cons p t ih =>
    obtain ⟨k1, v1⟩ := p
    by_cases h : k1 = k
    · simp [mapSet, mapGet, h]
    · simp [mapSet, mapGet, h, ih]

theorem mapGet_mapSet_other {κ ν : Type} [DecidableEq κ] (m : List (κ × ν)) (k a : κ) (v : ν)
    (h : a ≠ k) : mapGet (mapSet m k v) a = mapGet m a := by
  induction m with
  | nil =>
    have h1 : ¬ k = a := fun e => h e.symm
    simp [mapSet, mapGet, h1]
  | cons p t ih =>
    obtain ⟨k1, v1⟩ := p
    by_cases h1 : k1 = k
    · have h2 : ¬ k1 = a := fun e => h (e.symm.trans h1)
      have h3 : ¬ k = a := fun e => h e.symm
      simp [mapSet, mapGet, h1, h3]
    · by_cases h2 : k1 = a
      · subst h2
        simp [mapSet, mapGet, h]
      · simp [mapSet, mapGet, h1, h2, ih]

theorem upperByte_lower (v : UInt8) (h1 : 97 ≤ v) (h2 : v ≤ 122) :
    upperByte v = v - 32 ∧ 65 ≤ v - 32 ∧ v - 32 ≤ 90 := by
  obtain ⟨n⟩ := v
  revert n
  decide

theorem not_lower_of_outside (v : UInt8) (h : v < 97 ∨ 122 < v) : ¬ (97 ≤ v ∧ v ≤ 122) := by
  obtain ⟨n⟩ := v
  revert n
  decide

theorem subBeforeLoop_hit (c : UInt8) (d a b : GoString) (h : c ∉ a) (pre : GoString) :
    subBeforeLoop [c] d pre (a ++ c :: b) = pre ++ a := by
  induction a generalizing pre with
  | nil => simp [subBeforeLoop]
  | cons x a ih =>
    have hx : ¬ x = c := fun e => h (by simp [e])
    have ha : c ∉ a := fun e => h (by simp [e])
    simp [subBeforeLoop, hx, ih ha]

theorem subBeforeLoop_miss (c : UInt8) (d s : GoString) (h : c ∉ s) (pre : GoString) :
    subBeforeLoop [c] d pre s = d := by
  induction s generalizing pre with
  | nil => simp [subBeforeLoop]
  | cons x a ih =>
    have hx : ¬ x = c := fun e => h (by simp [e])
    have ha : c ∉ a := fun e => h (by simp [e])
    simp [subBeforeLoop, hx, ih ha]

theorem subAfterLoop_hit (c : UInt8) (d a b : GoString) (h : c ∉ a) :
    subAfterLoop [c] d (a ++ c :: b) = b := by
  induction a with
  | nil => simp [subAfterLoop]
  | cons x a ih =>
    have hx : ¬ x = c := fun e => h (by simp [e])
    have ha : c ∉ a := fun e => h (by simp [e])
    simp [subAfterLoop, hx, ih ha]

theorem subAfterLoop_miss (c : UInt8) (d s : GoString) (h : c ∉ s) :
    subAfterLoop [c] d s = d := by
  induction s with
  | nil => simp [subAfterLoop]
  | cons x a ih =>
    have hx : ¬ x = c := fun e => h (by simp [e])
    have ha : c ∉ a := fun e => h (by simp [e])
    simp [subAfterLoop, hx, ih ha]

theorem TrimSuffix_append (stem suf : GoString) : TrimSuffix (stem ++ suf) suf = stem := by
  simp [TrimSuffix, HasSuffix]

theorem TrimSuffix_no_suffix (s suf : GoString) (h : ¬ suf <:+ s) : TrimSuffix s suf = s := by
  unfold TrimSuffix HasSuffix
  split
  · rename_i hh
    simp only [Bool.and_eq_true, decide_eq_true_eq] at hh
    exact absurd (hh.2 ▸ List.drop_suffix _ s) h
  · rfl

theorem TrimPrefix_append (p rest : GoString) : TrimPrefix (p ++ rest) p = rest := by
  simp [TrimPrefix, HasPrefix]

theorem firstDynamic_skip (before : List GoString) (name : GoString) (after : List GoString)
    (hb : ∀ e ∈ before, ∃ c t, e = c :: t ∧ c ≠ 91) :
    firstDynamic (before ++ (91 :: name) :: after) = some (some (91 :: name)) := by
  induction before with
  | nil => simp [firstDynamic]
  | cons e before ih =>
    obtain ⟨c, t, he, hc⟩ := hb e (by simp)
    subst he
    have := ih (fun e he => hb e (by simp [he]))
    simp [firstDynamic, hc, this]

theorem innerMap_set_same (l l1 : LangEngine) (lang : GoString) (d : Dict)
    (h : l1.langs = mapSet l.langs lang (some d)) : innerMap l1 lang = some d := by
  simp [innerMap, h, mapGet_mapSet_same]

theorem innerMap_set_other (l l1 : LangEngine) (lang a : GoString) (d : Dict)
    (h : l1.langs = mapSet l.langs lang (some d)) (ha : a ≠ lang) :
    innerMap l1 a = innerMap l a := by
  simp [innerMap, h, mapGet_mapSet_other _ _ _ _ ha]

theorem entry_set_same (l l1 : LangEngine) (lang key v : GoString) (d : Dict)
    (h : l1.langs = mapSet l.langs lang (some (mapSet d key v))) :
    entry l1 lang key = some v := by
  simp [entry, innerMap_set_same l l1 lang _ h, mapGet_mapSet_same]

theorem entry_set_other_lang (l l1 : LangEngine) (lang a k : GoString) (d : Dict)
    (h : l1.langs = mapSet l.langs lang (some d)) (ha : a ≠ lang) :
    entry l1 a k = entry l a k := by
  simp [entry, innerMap_set_other l l1 lang a d h ha]

theorem entry_set_other_key (l l1 : LangEngine) (lang key k v : GoString)
    (h : l1.langs = mapSet l.langs lang
      (some (mapSet ((innerMap l lang).getD []) key v))) (hk : k ≠ key) :
    entry l1 lang k = entry l lang k := by
  rw [entry, innerMap_set_same l l1 lang _ h, entry]
  cases hd : innerMap l lang with
  | none =>
    have hk1 : ¬ key = k := fun e => hk e.symm
    simp [mapSet, mapGet, hk1]
  | some d => simp [mapGet_mapSet_other _ _ _ _ hk]

theorem entry_set_other (l l1 : LangEngine) (lang key a k v : GoString)
    (h : l1.langs = mapSet l.langs lang
      (some (mapSet ((innerMap l lang).getD []) key v))) (hak : a ≠ lang ∨ k ≠ key) :
    entry l1 a k = entry l a k := by
  by_cases ha : a = lang
  · subst ha
    rcases hak with h1 | h1
    · exact absurd rfl h1
    · exact entry_set_other_key l l1 a key k v h h1
  · exact entry_set_other_lang l l1 lang a k _ h ha

theorem entry_overwrite_other (l l2 : LangEngine) (lang key a k v : GoString) (d : Dict)
    (hd : innerMap l lang = some d)
    (h : l2.langs = mapSet l.langs lang (some (mapSet d key v))) (hak : a ≠ lang ∨ k ≠ key) :
    entry l2 a k = entry l a k := by
  by_cases ha : a = lang
  · subst ha
    have hk : k ≠ key := by
      rcases hak with h1 | h1
      · exact absurd rfl h1
      · exact h1
    rw [entry, innerMap_set_same l l2 a _ h, entry, hd]
    simp [mapGet_mapSet_other _ _ _ _ hk]
  · exact entry_set_other_lang l l2 lang a k _ h ha

theorem entry_none_of_innerMap_none (l : LangEngine) (lang k : GoString)
    (h : (innerMap l lang).isSome = false) : entry l lang k = none := by
  cases hd : innerMap l lang with
  | none => simp [entry, hd]
  | some d => simp [hd] at h

theorem lookup_autosync_eq (l : LangEngine) (lang key : GoString)
    (hauto : l.DisableAutoSync = false) (habs : entry l lang key = none) :
    lookup lang key l =
      if lang ≠ getDefaultLang l ∧ (innerMap (afterAutoSync l lang key) (getDefaultLang l)).isSome
      then
        match entry (afterAutoSync l lang key) (getDefaultLang l) key with
        | some v =>
          match setEntry (afterAutoSync l lang key) lang key v with
          | some l2 => some (v, l2)
          | none => none
        | none => some (toUpperCamelCase key, afterAutoSync l lang key)
      else some (toUpperCamelCase key, afterAutoSync l lang key) := by
  unfold lookup
  simp only [habs, hauto, Bool.false_eq_true, if_false]
  rfl

theorem lookup_autosync_spec (l : LangEngine) (L key : GoString)
    (hauto : l.DisableAutoSync = false)
    (habs : entry l (L) key = none) :
    ∃ t l1, lookup L key l = some (t, l1)
      ∧ ((L = getDefaultLang l ∨ entry l (getDefaultLang l) key = none) →
          t = toUpperCamelCase key)
      ∧ (∀ v, L ≠ getDefaultLang l → entry l (getDefaultLang l) key = some v →
          t = v)
      ∧ entry l1 (L) key = some t
      ∧ l1.needSync = true
      ∧ ∀ lang k, (lang ≠ L ∨ k ≠ key) → entry l1 lang k = entry l lang k := by
  rw [lookup_autosync_eq l L key hauto habs]
  have hA : (afterAutoSync l L key).langs = mapSet l.langs L
      (some (mapSet ((innerMap l L).getD []) key (toUpperCamelCase key))) := rfl
  have hsame : entry (afterAutoSync l L key) L key = some (toUpperCamelCase key) :=
    entry_set_same l _ L key _ _ hA
  have hother : ∀ lang k, (lang ≠ L ∨ k ≠ key) → entry (afterAutoSync l L key) lang k = entry l lang k :=
    fun lang k h => entry_set_other l _ L key lang k _ hA h
  by_cases hc : L ≠ getDefaultLang l ∧ (innerMap (afterAutoSync l L key) (getDefaultLang l)).isSome
  · have hdef : entry (afterAutoSync l L key) (getDefaultLang l) key = entry l (getDefaultLang l) key :=
      hother _ _ (Or.inl (Ne.symm hc.1))
    rw [if_pos hc, hdef]
    cases hv : entry l (getDefaultLang l) key with
    | none =>
      refine ⟨toUpperCamelCase key, afterAutoSync l L key, rfl, fun _ => rfl, ?_, hsame, rfl, hother⟩
      intro v _ h; simp at h
    | some v =>
      have hin : innerMap (afterAutoSync l L key) L
          = some (mapSet ((innerMap l L).getD []) key (toUpperCamelCase key)) :=
        innerMap_set_same l _ L _ hA
      simp only [setEntry, hin]
      refine ⟨v, _, rfl, ?_, ?_, ?_, rfl, ?_⟩
      · rintro (h | h)
        · exact absurd h hc.1
        · simp at h
      · intro w _ h
        simp at h
        exact h
      · exact entry_set_same (afterAutoSync l L key) _ L key v _ rfl
      · intro lang k h
        rw [← hother lang k h]
        exact entry_overwrite_other (afterAutoSync l L key) _ L key lang k v _ hin rfl h
  · rw [if_neg hc]
    refine ⟨toUpperCamelCase key, afterAutoSync l L key, rfl, fun _ => rfl, ?_, hsame, rfl, hother⟩
    intro v hne hv
    exfalso
    apply hc
    refine ⟨hne, ?_⟩
    have : innerMap (afterAutoSync l L key) (getDefaultLang l) = innerMap l (getDefaultLang l) :=
      innerMap_set_other l _ L _ _ hA (Ne.symm hne)
    rw [this]
    cases hd : innerMap l (getDefaultLang l) with
    | none => simp [entry, hd] at hv
    | some d => rfl

theorem lookup_stored (lang key t : GoString) (l : LangEngine)
    (h : entry l lang key = some t) : lookup lang key l = some (t, l) := by
  simp [lookup, h]

theorem lookup_noSync_eq (l : LangEngine) (lang key : GoString)
    (hdis : l.DisableAutoSync = true) (habs : entry l lang key = none) :
    lookup lang key l =
      if lang ≠ getDefaultLang l ∧ (innerMap l (getDefaultLang l)).isSome
      then
        match entry l (getDefaultLang l) key with
        | some v =>
          match setEntry l lang key v with
          | some l2 => some (v, l2)
          | none => none
        | none => some (toUpperCamelCase key, l)
      else some (toUpperCamelCase key, l) := by
  unfold lookup
  simp only [habs, hdis, if_true]

theorem negotiate_bound (l : LangEngine) (path : GoString)
    (h : negotiate l path ≠ getDefaultLang l) :
    (mapGet l.langs (negotiate l path)).isSome = true := by
  by_cases hc : langSegment path ≠ [] ∧ (mapGet l.langs (langSegment path)).isSome = true
  · have e : negotiate l path = langSegment path := by
      unfold negotiate
      exact if_pos hc
    rw [e]
    exact hc.2
  · have e : negotiate l path = getDefaultLang l := by
      unfold negotiate
      exact if_neg hc
    exact absurd e h

theorem lookup_settles (lang key t : GoString) (l l1 : LangEngine)
    (h : lookup lang key l = some (t, l1)) : entry l1 lang key = some t ∨ l1 = l := by
  cases he : entry l lang key with
  | some v =>
    rw [lookup_stored lang key v l he] at h
    simp at h
    exact Or.inr h.2.symm
  | none =>
    cases hd : l.DisableAutoSync with
    | true =>
      rw [lookup_noSync_eq l lang key hd he] at h
      by_cases hc : lang ≠ getDefaultLang l ∧ (innerMap l (getDefaultLang l)).isSome
      · rw [if_pos hc] at h
        cases hv : entry l (getDefaultLang l) key with
        | none =>
          simp only [hv] at h
          simp at h
          exact Or.inr h.2.symm
        | some v =>
          simp only [hv] at h
          cases hi : innerMap l lang with
          | none => simp [setEntry, hi] at h
          | some d =>
            simp only [setEntry, hi] at h
            simp at h
            obtain ⟨h1, h2⟩ := h
            subst h1
            left
            exact entry_set_same l l1 lang key v d (by rw [← h2])
      · rw [if_neg hc] at h
        simp at h
        exact Or.inr h.2.symm
    | false =>
      left
      obtain ⟨t2, l2, h2, -, -, h3, -, -⟩ := lookup_autosync_spec l lang key hd he
      rw [h2] at h
      simp at h
      obtain ⟨h4, h5⟩ := h
      subst h4 h5
      exact h3

theorem lookup_again (lang key t : GoString) (l l1 : LangEngine)
    (h : lookup lang key l = some (t, l1)) : lookup lang key l1 = some (t, l1) := by
  rcases lookup_settles lang key t l l1 h with h1 | h1
  · exact lookup_stored lang key t l1 h1
  · rw [h1]; rw [h1] at h; exact h

theorem generateS_twice (l : LangEngine) (path key : GoString)
    (hinv : ∀ lang, mapGet l.langs lang ≠ some none) :
    ∃ t l1, generateS l path key l = some (t, l1) ∧ generateS l path key l1 = some (t, l1) := by
  have hex : ∃ t l1, lookup (negotiate l path) key l = some (t, l1) := by
    cases he : entry l (negotiate l path) key with
    | some v => exact ⟨v, l, lookup_stored _ _ _ _ he⟩
    | none =>
      cases hd : l.DisableAutoSync with
      | false =>
        obtain ⟨t2, l2, h2, -⟩ := lookup_autosync_spec l _ key hd he
        exact ⟨t2, l2, h2⟩
      | true =>
        rw [lookup_noSync_eq l _ key hd he]
        by_cases hc : negotiate l path ≠ getDefaultLang l ∧ (innerMap l (getDefaultLang l)).isSome
        · rw [if_pos hc]
          cases hv : entry l (getDefaultLang l) key with
          | none => exact ⟨_, _, rfl⟩
          | some v =>
            have hb := negotiate_bound l path hc.1
            cases hm : mapGet l.langs (negotiate l path) with
            | none => simp [hm] at hb
            | some od =>
              cases od with
              | none => exact absurd hm (hinv _)
              | some d =>
                have hi : innerMap l (negotiate l path) = some d := by simp [innerMap, hm]
                simp only [setEntry, hi]
                exact ⟨_, _, rfl⟩
        · rw [if_neg hc]
          exact ⟨_, _, rfl⟩
  obtain ⟨t, l1, h⟩ := hex
  exact ⟨t, l1, h, lookup_again _ _ _ _ _ h⟩

theorem langSegment_between (pre seg tail : GoString) (hpre : 47 ∉ pre) (hseg : 47 ∉ seg) :
    langSegment (pre ++ [47] ++ seg ++ [47] ++ tail) = seg := by
  have e1 : pre ++ [47] ++ seg ++ [47] ++ tail = pre ++ 47 :: (seg ++ 47 :: tail) := by simp
  unfold langSegment SubAfter SubBefore
  rw [e1, subAfterLoop_hit 47 _ pre _ hpre, subBeforeLoop_hit 47 _ seg tail hseg]
  simp

theorem langSegment_decompose (path : GoString) (h : langSegment path ≠ []) :
    ∃ pre tail, path = pre ++ [47] ++ langSegment path ++ [47] ++ tail
      ∧ 47 ∉ pre ∧ 47 ∉ langSegment path := by
  by_cases h1 : (47 : UInt8) ∈ path
  · obtain ⟨pre, r, hp, hpre⟩ := List.eq_append_cons_of_mem h1
    by_cases h2 : (47 : UInt8) ∈ r
    · obtain ⟨seg, tail, hr, hseg⟩ := List.eq_append_cons_of_mem h2
      have e : path = pre ++ [47] ++ seg ++ [47] ++ tail := by simp [hp, hr]
      have hs : langSegment path = seg := by rw [e]; exact langSegment_between pre seg tail hpre hseg
      exact ⟨pre, tail, by rw [hs]; exact e, hpre, by rw [hs]; exact hseg⟩
    · exfalso
      apply h
      unfold langSegment SubAfter SubBefore
      rw [hp, subAfterLoop_hit 47 _ pre r hpre, subBeforeLoop_miss 47 _ r h2]
  · exfalso
    apply h
    unfold langSegment SubAfter SubBefore
    rw [subAfterLoop_miss 47 _ path h1, subBeforeLoop_miss 47 _ path h1]

theorem routeLoop_break (fs : FS) (urlPath seg pwd : GoString) (rest : List GoString)
    (m : Params) (hseg : seg ≠ []) (hstat : fs.stat (filepathJoin [pwd, seg]) = some false) :
    routeLoop fs urlPath (seg :: rest) pwd m = .ok (pwd, m) := by
  rw [routeLoop]
  simp only [hseg, if_false, hstat]

theorem TrySync_engine (writeOk : GoString → Bool) (l : LangEngine) :
    (TrySync writeOk l).engine = l := by
  unfold TrySync
  split <;> rfl

/-! ## The claims -/

/-- Claim C1, evaluated on the code. In the tree `src/users/[id]/profile.html` (where
`src/users/42` does not exist and `[id]` is the only entry of `src/users`), resolving
`/users/42/profile.html` binds `id = 42` but returns `src/users/[id]`, the directory the
walk was in when it met the file, not the file `src/users/[id]/profile.html`. -/
theorem parsePathParams_file_under_dynamic_dir :
    treeDirParam.stat (lit "src/users/[id]/profile.html") = some false
    ∧ treeDirParam.stat (lit "src/users/42") = none
    ∧ treeDirParam.readDir (lit "src/users") = some [lit "[id]"]
    ∧ parsePathParams treeDirParam (lit "src") (lit "/users/42/profile.html")
        = .ok (lit "src/users/[id]", [(lit "id", lit "42")]) := by
  refine ⟨by rfl, by rfl, by rfl, by rfl⟩

/-- Claim C2, evaluated on the code. In the store read from `en.json` = `{"hello": "Hi"}`
and `fr.json` = `null`, with autosync disabled, the request `/fr/index.html` negotiates
`fr`, the key `hello` has no entry under `fr`, and the first lookup does not return: the
write `l.langs[lang][key] = v` hits the nil map of `fr`. -/
theorem generateS_nil_dictionary_panics :
    storeNilFr.DisableAutoSync = true
    ∧ negotiate storeNilFr (lit "/fr/index.html") = lit "fr"
    ∧ entry storeNilFr (lit "fr") (lit "hello") = none
    ∧ entry storeNilFr (lit "en") (lit "hello") = some (lit "Hi")
    ∧ generateS storeNilFr (lit "/fr/index.html") (lit "hello") storeNilFr = none := by
  decide

/-- Claim C3, as amended. With autosync enabled and the key absent under the negotiated
language, the lookup returns: the text is `toUpperCamelCase(key)` when the language is
the default one or the default language has no text for the key, and the default
language's text otherwise; afterwards the negotiated language maps the key to the
returned text, `needSync` is true and every other (language, key) entry is unchanged. -/
theorem generateS_autosync_backfill (l : LangEngine) (path key : GoString)
    (hauto : l.DisableAutoSync = false)
    (habs : entry l (negotiate l path) key = none) :
    ∃ t l1, generateS l path key l = some (t, l1)
      ∧ ((negotiate l path = getDefaultLang l ∨ entry l (getDefaultLang l) key = none) →
          t = toUpperCamelCase key)
      ∧ (∀ v, negotiate l path ≠ getDefaultLang l → entry l (getDefaultLang l) key = some v →
          t = v)
      ∧ entry l1 (negotiate l path) key = some t
      ∧ l1.needSync = true
      ∧ ∀ lang k, (lang ≠ negotiate l path ∨ k ≠ key) → entry l1 lang k = entry l lang k :=
  lookup_autosync_spec l (negotiate l path) key hauto habs

/-- Witness of `generateS_autosync_backfill`: the key `bye` under `/fr/x.html`. -/
theorem generateS_autosync_backfill_witness :
    (storeEnFr false false).DisableAutoSync = false
    ∧ entry (storeEnFr false false) (negotiate (storeEnFr false false) (lit "/fr/x.html"))
        (lit "bye") = none
    ∧ ∃ t l1, generateS (storeEnFr false false) (lit "/fr/x.html") (lit "bye")
          (storeEnFr false false) = some (t, l1)
      ∧ ((negotiate (storeEnFr false false) (lit "/fr/x.html")
            = getDefaultLang (storeEnFr false false)
          ∨ entry (storeEnFr false false) (getDefaultLang (storeEnFr false false)) (lit "bye")
            = none) → t = toUpperCamelCase (lit "bye"))
      ∧ (∀ v, negotiate (storeEnFr false false) (lit "/fr/x.html")
            ≠ getDefaultLang (storeEnFr false false) →
          entry (storeEnFr false false) (getDefaultLang (storeEnFr false false)) (lit "bye")
            = some v → t = v)
      ∧ entry l1 (negotiate (storeEnFr false false) (lit "/fr/x.html")) (lit "bye") = some t
      ∧ l1.needSync = true
      ∧ ∀ lang k, (lang ≠ negotiate (storeEnFr false false) (lit "/fr/x.html") ∨ k ≠ lit "bye") →
          entry l1 lang k = entry (storeEnFr false false) lang k :=
  ⟨by decide, by decide,
    generateS_autosync_backfill (storeEnFr false false) (lit "/fr/x.html") (lit "bye")
      (by decide) (by decide)⟩

/-- Claim C3 as stated fails: with autosync enabled, `hello` absent under the negotiated
language `fr` and present under the default language `en` as `Hi`, the lookup returns
`Hi`, not `toUpperCamelCase("hello")` = `Hello`. -/
theorem generateS_autosync_default_text :
    (storeEnFr false false).DisableAutoSync = false
    ∧ negotiate (storeEnFr false false) (lit "/fr/x.html") = lit "fr"
    ∧ entry (storeEnFr false false) (lit "fr") (lit "hello") = none
    ∧ (generateS (storeEnFr false false) (lit "/fr/x.html") (lit "hello")
        (storeEnFr false false)).map Prod.fst = some (lit "Hi")
    ∧ toUpperCamelCase (lit "hello") = lit "Hello"
    ∧ lit "Hi" ≠ toUpperCamelCase (lit "hello") := by
  decide

/-- Claim C4, as amended. The segment that counts is the text between the first `/` of
the path and the next `/`. For a path `/seg/tail` whose `seg` is non-empty and a known
language, `getLangOf` is `seg` and `getRelPath` is `/tail`. When the path cannot be read
as `pre/seg/tail` with `pre` free of `/` and `seg` a non-empty known language without
`/`, `getLangOf` is the default language and `getRelPath` is the path unchanged. -/
theorem language_of_path (l : LangEngine) (path : GoString) :
    (∀ seg tail, path = [47] ++ seg ++ [47] ++ tail → seg ≠ [] → 47 ∉ seg →
        (mapGet l.langs seg).isSome = true →
        getLangOf l path = seg ∧ getRelPath l path = [47] ++ tail)
    ∧ ((∀ pre seg tail, path = pre ++ [47] ++ seg ++ [47] ++ tail → 47 ∉ pre → 47 ∉ seg →
          seg ≠ [] → (mapGet l.langs seg).isSome = false) →
        getLangOf l path = getDefaultLang l ∧ getRelPath l path = path) := by
  constructor
  · intro seg tail hp hne hseg hk
    have hs : langSegment path = seg := by
      rw [hp]
      have := langSegment_between [] seg tail (by simp) hseg
      simpa using this
    have ht : TrimPrefix path ([47] ++ seg) = [47] ++ tail := by
      rw [hp]
      have := TrimPrefix_append ([47] ++ seg) ([47] ++ tail)
      simpa using this
    unfold getLangOf getRelPath
    simp only [hs, ht]
    simp [hne, hk]
  · intro hno
    have hcond : ¬ (langSegment path ≠ [] ∧ (mapGet l.langs (langSegment path)).isSome = true) := by
      rintro ⟨hne, hk⟩
      obtain ⟨pre, tail, hp, hpre, hseg⟩ := langSegment_decompose path hne
      have := hno pre (langSegment path) tail hp hpre hseg hne
      rw [this] at hk
      exact absurd hk (by simp)
    unfold getLangOf getRelPath
    simp only [hcond, if_false]
    simp

/-- Witness of `language_of_path`: with `en` and `fr` known, `/fr/about.html` gives `fr` and
`/about.html`; `/about.html` gives the default language and itself; `/fr`, which has a
single `/`, gives the default language and itself. -/
theorem language_of_path_witness :
    lit "/fr/about.html" = [47] ++ lit "fr" ++ [47] ++ lit "about.html"
    ∧ (mapGet (storeEnFr false false).langs (lit "fr")).isSome = true
    ∧ getLangOf (storeEnFr false false) (lit "/fr/about.html") = lit "fr"
    ∧ getRelPath (storeEnFr false false) (lit "/fr/about.html") = [47] ++ lit "about.html"
    ∧ getLangOf (storeEnFr false false) (lit "/about.html") = lit "en"
    ∧ getRelPath (storeEnFr false false) (lit "/about.html") = lit "/about.html"
    ∧ getLangOf (storeEnFr false false) (lit "/fr") = getDefaultLang (storeEnFr false false)
    ∧ getRelPath (storeEnFr false false) (lit "/fr") = lit "/fr" :=
  have h := (language_of_path (storeEnFr false false) (lit "/fr/about.html")).1
    (lit "fr") (lit "about.html") (by decide) (by decide) (by decide) (by decide)
  have h2 := (language_of_path (storeEnFr false false) (lit "/fr")).2 (by
    intro pre seg tail e
    have hc := congrArg (List.count (47 : UInt8)) e
    have h1 : List.count (47 : UInt8) (lit "/fr") = 1 := by decide
    rw [h1] at hc
    simp [List.count_append] at hc
    omega)
  ⟨by decide, by decide, h.1, h.2, by decide, by decide, h2.1, h2.2⟩

/-- Claim C4 as stated fails: with `en` and `fr` known, the first non-empty segment of
`/fr` and of `//fr/x` is `fr`, yet both paths get the default language `en` and stay
unchanged. -/
theorem language_of_path_bare_segment :
    (stringsSplit 47 (lit "/fr")).find? (fun s => decide (s ≠ [])) = some (lit "fr")
    ∧ (stringsSplit 47 (lit "//fr/x")).find? (fun s => decide (s ≠ [])) = some (lit "fr")
    ∧ (mapGet (storeEnFr false false).langs (lit "fr")).isSome = true
    ∧ getLangOf (storeEnFr false false) (lit "/fr") = lit "en"
    ∧ getRelPath (storeEnFr false false) (lit "/fr") = lit "/fr"
    ∧ getLangOf (storeEnFr false false) (lit "//fr/x") = lit "en"
    ∧ getRelPath (storeEnFr false false) (lit "//fr/x") = lit "//fr/x" := by
  decide

/-- Claim C5. Whenever `Join(R, TrimPrefix(p, "/"))` exists, `parsePathParams(R, p)` returns
no error, the empty resolved file and the empty map, whatever else the file system
holds. -/
theorem parsePathParams_existing (fs : FS) (R p : GoString)
    (h : (fs.stat (filepathJoin [R, TrimPrefix p [47]])).isSome = true) :
    parsePathParams fs R p = .ok ([], []) := by
  unfold parsePathParams
  cases hs : fs.stat (filepathJoin [R, TrimPrefix p [47]]) with
  | none => simp [hs] at h
  | some b => rfl

/-- Witness of `parsePathParams_existing`: `src/about.html` beside the dynamic `src/[page]`. -/
theorem parsePathParams_existing_witness :
    (treeLiteral.stat (filepathJoin [lit "src", TrimPrefix (lit "/about.html") [47]])).isSome
      = true
    ∧ treeLiteral.readDir (lit "src") = some [lit "[page]", lit "about.html"]
    ∧ parsePathParams treeLiteral (lit "src") (lit "/about.html") = .ok ([], []) :=
  ⟨by rfl, by rfl,
    parsePathParams_existing treeLiteral (lit "src") (lit "/about.html") (by rfl)⟩

/-- Claim C6, evaluated on the code. With `needSync` true and every write succeeding,
`TrySync` writes `lang/en.json` and `lang/fr.json` and returns no error, but `needSync` is
still true afterwards, and a second `TrySync` right after writes both files again. -/
theorem TrySync_keeps_needSync :
    (storeEnFr false true).needSync = true
    ∧ (TrySync (fun _ => true) (storeEnFr false true)).written.map Prod.fst
        = [lit "lang/en.json", lit "lang/fr.json"]
    ∧ (TrySync (fun _ => true) (storeEnFr false true)).failed = false
    ∧ (TrySync (fun _ => true) (storeEnFr false true)).engine.needSync = true
    ∧ (TrySync (fun _ => true)
        (TrySync (fun _ => true) (storeEnFr false true)).engine).written.map Prod.fst
        = [lit "lang/en.json", lit "lang/fr.json"] := by
  decide

/-- Claim C7. The empty string is returned as it is; a string whose first byte is in
`a`..`z` gets that byte moved to `A`..`Z` (32 lower) and keeps every later byte, so the
length is kept; a string whose first byte is outside `a`..`z` (upper case, not a letter,
or the lead byte of a multi-byte character) is returned as it is. -/
theorem toUpperCamelCase_spec (K : GoString) :
    (K = [] → toUpperCamelCase K = K)
    ∧ (∀ v rest, K = v :: rest → 97 ≤ v → v ≤ 122 →
        toUpperCamelCase K = (v - 32) :: rest ∧ 65 ≤ v - 32 ∧ v - 32 ≤ 90
        ∧ (toUpperCamelCase K).length = K.length
        ∧ (toUpperCamelCase K).drop 1 = K.drop 1)
    ∧ (∀ v rest, K = v :: rest → (v < 97 ∨ 122 < v) → toUpperCamelCase K = K) := by
  refine ⟨?_, ?_, ?_⟩
  · intro h; subst h; rfl
  · intro v rest h h1 h2
    subst h
    have hu := upperByte_lower v h1 h2
    simp [toUpperCamelCase, h1, h2, hu.1, hu.2.1, hu.2.2]
  · intro v rest h h1
    subst h
    have := not_lower_of_outside v h1
    simp [toUpperCamelCase, this]

/-- Witness of `toUpperCamelCase_spec`: `hello` becomes `Hello`; a string starting with
the two-byte character U+00E9 stays as it is. -/
theorem toUpperCamelCase_spec_witness :
    lit "hello" = 104 :: lit "ello"
    ∧ ((97 : UInt8) ≤ 104 ∧ (104 : UInt8) ≤ 122)
    ∧ toUpperCamelCase (lit "hello") = (104 - 32) :: lit "ello"
    ∧ (104 - 32 : UInt8) :: lit "ello" = lit "Hello"
    ∧ ((195 : UInt8) < 97 ∨ (122 : UInt8) < 195)
    ∧ toUpperCamelCase ([195, 169] ++ lit "t") = [195, 169] ++ lit "t" :=
  ⟨by decide, by decide,
    ((toUpperCamelCase_spec (lit "hello")).2.1 104 (lit "ello")
      (by decide) (by decide) (by decide)).1,
    by decide, by decide,
    (toUpperCamelCase_spec ([195, 169] ++ lit "t")).2.2 195 (169 :: lit "t")
      (by decide) (by decide)⟩

/-- Claim C8, evaluated on the code. For `src/users/[id]/profile.html` with `_data` holding
`alice.json` and `bob.json`, the export fetches `/users/[id]/alice.html` and
`/users/[id]/bob.html`: the file name is replaced and the bracketed directory segment
stays, and the route resolver rejects such a path. For `src/users/[id].html` the fetched
paths are `/users/alice.html` and `/users/bob.html`. -/
theorem Export_dir_param_targets :
    exportDynamic treeDirParam (lit "docs") (lit "src/users/[id]/profile.html")
        (lit "users/[id]/profile.html")
      = some [⟨lit "docs/users/[id]/alice.html", lit "/users/[id]/alice.html"⟩,
              ⟨lit "docs/users/[id]/bob.html", lit "/users/[id]/bob.html"⟩]
    ∧ parsePathParams treeDirParam (lit "src") (lit "users/[id]/alice.html")
        = .error (.routeNotFound (lit "users/[id]/alice.html"))
    ∧ exportDynamic treeFileParam (lit "docs") (lit "src/users/[id].html")
        (lit "users/[id].html")
      = some [⟨lit "docs/users/alice.html", lit "/users/alice.html"⟩,
              ⟨lit "docs/users/bob.html", lit "/users/bob.html"⟩] := by
  refine ⟨by rfl, by rfl, by rfl⟩

/-- Claim C9, evaluated on the code. A `Config` with `TemplateExt` left empty accepts
`.html`; the `Config` built from the default `-ext` flag has `TemplateExt = ["html"]`,
and `isTemplateExt(filepath.Ext("index.html"))` is false for it. -/
theorem isTemplateExt_cli_default :
    (isTemplateExt (New none) (filepathExt (lit "index.html"))).1 = true
    ∧ (mainConfig defaultFlags).TemplateExt = [lit "html"]
    ∧ filepathExt (lit "index.html") = lit ".html"
    ∧ (isTemplateExt (New (some (mainConfig defaultFlags)))
        (filepathExt (lit "index.html"))).1 = false := by
  decide

/-- Claim C10. In a directory `D` whose listing is readable, for a non-empty segment
`seg` with `Join(D, seg)` not existing, when the first entry starting with `[` is
`[name]suffix` (`name` free of `]`, the entries before it non-empty), the walk goes on
from `Join(D, "[name]suffix")` with `params[name] = TrimSuffix(seg, suffix)`: `seg` without
`suffix` when it ends with it, `seg` itself otherwise. -/
theorem routeLoop_dynamic_segment (fs : FS) (urlPath D seg : GoString)
    (rest : List GoString) (m : Params)
    (before after : List GoString) (name suffix : GoString)
    (hseg : seg ≠ [])
    (hstat : fs.stat (filepathJoin [D, seg]) = none)
    (hdir : fs.readDir D = some (before ++ ([91] ++ name ++ [93] ++ suffix) :: after))
    (hbefore : ∀ e ∈ before, ∃ c t, e = c :: t ∧ c ≠ 91)
    (hname : 93 ∉ name) :
    routeLoop fs urlPath (seg :: rest) D m
        = routeLoop fs urlPath rest (filepathJoin [D, [91] ++ name ++ [93] ++ suffix])
            (mapSet m name (TrimSuffix seg suffix))
    ∧ mapGet (mapSet m name (TrimSuffix seg suffix)) name = some (TrimSuffix seg suffix)
    ∧ (∀ stem, seg = stem ++ suffix → TrimSuffix seg suffix = stem)
    ∧ (¬ suffix <:+ seg → TrimSuffix seg suffix = seg) := by
  refine ⟨?_, mapGet_mapSet_same _ _ _, ?_, TrimSuffix_no_suffix seg suffix⟩
  · have e1 : [91] ++ name ++ [93] ++ suffix = 91 :: (name ++ 93 :: suffix) := by simp
    have hfd := firstDynamic_skip before (name ++ 93 :: suffix) after hbefore
    have hkey : SubBefore ((91 :: (name ++ 93 :: suffix)).drop 1) [93] [] = name := by
      have := subBeforeLoop_hit 93 [] name suffix hname []
      simpa [SubBefore] using this
    have hsuf : SubAfter (91 :: (name ++ 93 :: suffix)) [93] [] = suffix := by
      have h91 : (93 : UInt8) ∉ (91 :: name) := by
        simp only [List.mem_cons, not_or]
        exact ⟨by decide, hname⟩
      have := subAfterLoop_hit 93 [] (91 :: name) suffix h91
      simpa [SubAfter] using this
    rw [e1] at hdir ⊢
    rw [routeLoop]
    simp only [hseg, if_false, hstat, hdir, hfd, hkey, hsuf]
  · intro stem hs
    rw [hs]
    exact TrimSuffix_append stem suffix

/-- Witness of `routeLoop_dynamic_segment`: in `src/users` holding `[id].html`, the segment
`42.html` binds `id = 42`; the whole resolution of `/users/42.html` returns
`src/users/[id].html` with exactly that binding. -/
theorem routeLoop_dynamic_segment_witness :
    lit "42.html" ≠ []
    ∧ treeFileParam.stat (filepathJoin [lit "src/users", lit "42.html"]) = none
    ∧ treeFileParam.readDir (lit "src/users")
        = some ([] ++ ([91] ++ lit "id" ++ [93] ++ lit ".html") :: [lit "_data"])
    ∧ routeLoop treeFileParam (lit "/users/42.html") [lit "42.html"] (lit "src/users") []
        = routeLoop treeFileParam (lit "/users/42.html") []
            (filepathJoin [lit "src/users", [91] ++ lit "id" ++ [93] ++ lit ".html"])
            (mapSet [] (lit "id") (TrimSuffix (lit "42.html") (lit ".html")))
    ∧ TrimSuffix (lit "42.html") (lit ".html") = lit "42"
    ∧ parsePathParams treeFileParam (lit "src") (lit "/users/42.html")
        = .ok (lit "src/users/[id].html", [(lit "id", lit "42")]) :=
  ⟨by decide, by rfl, by rfl,
    (routeLoop_dynamic_segment treeFileParam (lit "/users/42.html") (lit "src/users")
      (lit "42.html") [] [] [] [lit "_data"] (lit "id") (lit ".html")
      (by decide) (by rfl) (by rfl) (by simp) (by decide)).1,
    by decide, by rfl⟩

end ZWeb
